import Mathlib

/-!
Verification development for the koa-router typings repository.

The repository ships only ambient type declarations (`lib/router.d.ts`,
`lib/layer.d.ts`) plus one integration test; the routing implementation the
declarations describe is not part of the sources.  Following the spec
(`spec.md`), the definitions below model that implied core system: a
path-pattern compiler, route (Layer) matching with parameter capture and
percent-decoding, URL generation, router registration / lookup / mounting,
and the `allowedMethods` dispatch outcomes.  Every definition whose code is
absent from the sources carries a doc comment starting `Modelled from the
spec:` naming what it models.

Strings are modelled as lists of characters (`Str`), which keeps all
operations executable and proof-friendly.
-/

namespace KoaRouter

/-- Strings are modelled as lists of characters. -/
abbrev Str := List Char

/-- Convert a Lean string literal into the `Str` model. -/
def str (s : String) : Str := s.data

/-- The sixteen uppercase hexadecimal digit characters. -/
def hexChars : List Char :=
  ['0', '1', '2', '3', '4', '5', '6', '7', '8', '9', 'A', 'B', 'C', 'D', 'E', 'F']

/-- Modelled from the spec: hexadecimal digit used by percent-encoding
(uppercase, as produced by `encodeURIComponent`). -/
def hexDigitChar (d : Nat) : Char :=
  hexChars.getD d '0'

/-- Modelled from the spec: value of a hexadecimal digit character, `none`
when the character is not a hex digit (accepting both cases). -/
def hexVal? (c : Char) : Option Nat :=
  if c = '0' then some 0 else if c = '1' then some 1 else if c = '2' then some 2
  else if c = '3' then some 3 else if c = '4' then some 4 else if c = '5' then some 5
  else if c = '6' then some 6 else if c = '7' then some 7 else if c = '8' then some 8
  else if c = '9' then some 9 else if c = 'A' then some 10 else if c = 'B' then some 11
  else if c = 'C' then some 12 else if c = 'D' then some 13 else if c = 'E' then some 14
  else if c = 'F' then some 15 else if c = 'a' then some 10 else if c = 'b' then some 11
  else if c = 'c' then some 12 else if c = 'd' then some 13 else if c = 'e' then some 14
  else if c = 'f' then some 15 else none

/-- Modelled from the spec: characters left untouched by percent-encoding. -/
def isUnreserved (c : Char) : Bool :=
  c.isAlphanum || c = '-' || c = '.' || c = '_' || c = '~'

/-- Modelled from the spec: percent-encoding of a single character
(single-byte code points; multi-byte UTF-8 expansion is out of the model's
scope and is restricted away by hypotheses where it matters). -/
def encodeChar (c : Char) : Str :=
  if isUnreserved c then [c]
  else ['%', hexDigitChar (c.toNat / 16 % 16), hexDigitChar (c.toNat % 16)]

/-- Modelled from the spec: percent-encoding applied in URL generation. -/
def percentEncode : Str → Str
  | [] => []
  | c :: rest => encodeChar c ++ percentEncode rest

/-- Modelled from the spec: percent-decoding; fails (with `none`) on a
truncated or malformed escape, mirroring a `decodeURIComponent` error. -/
def percentDecode : Str → Option Str
  | [] => some []
  | c :: rest =>
    if c = '%' then
      match rest with
      | [] => none
      | [_] => none
      | h1 :: h2 :: rest' =>
        match hexVal? h1, hexVal? h2 with
        | some a, some b =>
          (percentDecode rest').map (fun ds => Char.ofNat (16 * a + b) :: ds)
        | some _, none => none
        | none, some _ => none
        | none, none => none
    else (percentDecode rest).map (fun ds => c :: ds)

/-- Modelled from the spec: decode a captured value, keeping the raw value
when decoding fails ("decode failure leaves the raw value and must not
raise"). -/
def safeDecode (s : Str) : Str :=
  match percentDecode s with
  | some d => d
  | none => s

/-- Split a string at every slash; mirrors how both route patterns and
request paths are cut into segments. -/
def splitSlash : Str → List Str
  | [] => [[]]
  | c :: cs =>
    if c = '/' then [] :: splitSlash cs
    else
      match splitSlash cs with
      | [] => [[c]]
      | g :: gs => (c :: g) :: gs

/-- Join segments with slashes (inverse of `splitSlash` on slash-free
segments). -/
def joinSlash : List Str → Str
  | [] => []
  | [s] => s
  | s :: rest => s ++ '/' :: joinSlash rest

/-- Modelled from the spec: one compiled pattern segment, either a literal
or a named `:name` parameter token. -/
inductive Seg
  | lit (s : Str)
  | param (name : Str)
deriving DecidableEq

/-- Modelled from the spec: compile one pattern segment; a leading colon
introduces a named parameter token. -/
def parseSeg : Str → Seg
  | [] => Seg.lit []
  | c :: rest => if c = ':' then Seg.param rest else Seg.lit (c :: rest)

/-- Modelled from the spec: the pattern compiler, producing the ordered
segment list of a path specification. -/
def parsePattern (p : Str) : List Seg :=
  (splitSlash p).map parseSeg

/-- Modelled from the spec: literal-segment comparison, case-insensitive
unless the `sensitive` option is set. -/
def litEq (sensitive : Bool) (a b : Str) : Bool :=
  if sensitive then a == b else a.map Char.toLower == b.map Char.toLower

/-- Modelled from the spec: execute a compiled matcher against path
segments, returning the ordered raw captures on success. -/
def segsExec (sensitive : Bool) : List Seg → List Str → Option (List Str)
  | [], [] => some []
  | [], _ :: _ => none
  | _ :: _, [] => none
  | Seg.lit l :: ss, p :: ps =>
    if litEq sensitive l p then segsExec sensitive ss ps else none
  | Seg.param _ :: ss, p :: ps =>
    if p.isEmpty then none else (segsExec sensitive ss ps).map (fun cs => p :: cs)

/-- Modelled from the spec: the ordered list of named-parameter tokens of a
compiled segment list. -/
def namesOf (segs : List Seg) : List Str :=
  segs.filterMap fun s =>
    match s with
    | Seg.param n => some n
    | Seg.lit _ => none

/-- Modelled from the spec: under non-strict matching one trailing slash is
optional, realised by dropping a single trailing empty path segment. -/
def stripTrailing (gs : List Str) : List Str :=
  if 2 ≤ gs.length ∧ gs.getLast? = some ([] : Str) then gs.dropLast else gs

/-- Modelled from the spec: the matcher-side counterpart of
`stripTrailing`, dropping a trailing empty literal of the pattern. -/
def stripSegs (segs : List Seg) : List Seg :=
  if 2 ≤ segs.length ∧ segs.getLast? = some (Seg.lit []) then segs.dropLast else segs

/-- Options accepted when building a Layer (`LayerOption` in
`lib/router.d.ts`): optional route name, case sensitivity, strict trailing
slash, and capture suppression. -/
structure LayerOption where
  name : Option Str := none
  sensitive : Bool := false
  strict : Bool := false
  ignoreCaptures : Bool := false
deriving DecidableEq

/-- A registered route (class `Layer` in `lib/layer.d.ts`): a path pattern,
a set of HTTP method tokens, a name (empty when unnamed) and options.  The
handler chain is opaque to the routing core and is not represented. -/
structure Layer where
  name : Str
  methods : List Str
  path : Str
  opts : LayerOption
deriving DecidableEq

/-- Modelled from the spec: uppercase one method token. -/
def upper (s : Str) : Str := s.map Char.toUpper

/-- Modelled from the spec: Layer construction uppercases the method
tokens and implies `HEAD` whenever `GET` is present. -/
def mkLayer (path : Str) (methods : List Str) (opts : LayerOption) : Layer :=
  let ms := methods.map upper
  { name := opts.name.getD []
  , methods := if ms.any (fun m => m == str "GET") && !(ms.any (fun m => m == str "HEAD"))
               then str "HEAD" :: ms else ms
  , path := path
  , opts := opts }

/-- Modelled from the spec: the ordered list of named parameters of a
Layer's compiled pattern (field `paramNames` of `lib/layer.d.ts`). -/
def Layer.paramNames (l : Layer) : List Str :=
  namesOf (parsePattern l.path)

/-- Modelled from the spec: run the compiled matcher of a Layer on a path,
returning the ordered raw captures on success; a single trailing slash is
optional on both sides unless `strict` is set. -/
def Layer.doMatch (l : Layer) (path : Str) : Option (List Str) :=
  let segs := parsePattern l.path
  let ps := splitSlash path
  if l.opts.strict then segsExec l.opts.sensitive segs ps
  else segsExec l.opts.sensitive (stripSegs segs) (stripTrailing ps)

/-- Whether the request path matches the route (`Layer.match` in
`lib/layer.d.ts`; `match` is a reserved word in Lean). -/
def Layer.matches (l : Layer) (path : Str) : Bool :=
  (l.doMatch path).isSome

/-- Array of url path captures (`Layer.captures` in `lib/layer.d.ts`);
empty when the `ignoreCaptures` option is set. -/
def Layer.captures (l : Layer) (path : Str) : List Str :=
  if l.opts.ignoreCaptures then [] else (l.doMatch path).getD []

/-- Parameter maps are association lists in registration order, mirroring
JS object key order (`Dict` in `lib/router.d.ts`). -/
abbrev Dict := List (Str × Str)

/-- Lookup of a key in a parameter map. -/
def dictGet : Dict → Str → Option Str
  | [], _ => none
  | p :: d, k => if p.1 = k then some p.2 else dictGet d k

/-- JS-object-style insertion: update in place when the key is present,
append otherwise (keys are unique by construction). -/
def dictSet : Dict → Str → Str → Dict
  | [], k, v => [(k, v)]
  | p :: d, k, v => if p.1 = k then (k, v) :: d else p :: dictSet d k v

/-- Modelled from the spec: `Layer.params` of `lib/layer.d.ts` — merge the
existing parameter map with the newly captured values, percent-decoding
each captured value before insertion and keeping the raw value when
decoding fails. -/
def Layer.params (l : Layer) (_path : Str) (captures : List Str) (existing : Dict) : Dict :=
  (List.zip l.paramNames captures).foldl
    (fun d p => dictSet d p.1 (safeDecode p.2)) existing

/-- Modelled from the spec: URL-generation errors (`MissingParameterError`
and `RouteNotFoundError` of the spec's error taxonomy). -/
inductive UrlError
  | missingParameter
  | routeNotFound
deriving DecidableEq

/-- Modelled from the spec: render one pattern segment during URL
generation, substituting the percent-encoded parameter value. -/
def renderSeg (ps : Dict) : Seg → Except UrlError Str
  | Seg.lit s => .ok s
  | Seg.param n =>
    match dictGet ps n with
    | some v => .ok (percentEncode v)
    | none => .error .missingParameter

/-- Modelled from the spec: render the whole segment list of a pattern. -/
def renderSegs (ps : Dict) : List Seg → Except UrlError (List Str)
  | [] => .ok []
  | sg :: rest =>
    match renderSeg ps sg, renderSegs ps rest with
    | .ok p, .ok pcs => .ok (p :: pcs)
    | .error e, _ => .error e
    | _, .error e => .error e

/-- Modelled from the spec: `Layer.url` of `lib/layer.d.ts` — substitute
each parameter token of the original pattern with the stringified,
percent-encoded value; fails with `MissingParameterError` when a required
parameter has no value. -/
def Layer.url (l : Layer) (ps : Dict) : Except UrlError Str :=
  (renderSegs ps (parsePattern l.path)).map joinSlash

/-- Modelled from the spec: `Layer.setPrefix` of `lib/layer.d.ts` — the
route now matches the mount prefix followed by the original pattern. -/
def Layer.setPfx (pre : Str) (l : Layer) : Layer :=
  { l with path := if l.path = str "/" then pre else pre ++ l.path }

/-- Modelled from the spec: registration-time errors
(`DuplicateNameError` of the spec's error taxonomy). -/
inductive RegError
  | duplicateName
deriving DecidableEq

/-- Modelled from the spec: the default set of implemented HTTP methods a
Router responds to under default options. -/
def defaultMethods : List Str :=
  [str "HEAD", str "OPTIONS", str "GET", str "PUT", str "PATCH",
   str "POST", str "DELETE"]

/-- The Router (`lib/router.d.ts`): the implemented method set and the
ordered stack of registered Layers (insertion order is matching
priority). -/
structure RouterM where
  methods : List Str := defaultMethods
  stack : List Layer := []
deriving DecidableEq

/-- Modelled from the spec: `Router.register` — builds and appends one
Layer, failing with `DuplicateNameError` when the requested name collides
with an existing Layer's name within the same Router. -/
def RouterM.register (r : RouterM) (path : Str) (methods : List Str)
    (opts : LayerOption) : Except RegError RouterM :=
  match opts.name with
  | some n =>
    if r.stack.any (fun l => l.name == n) then .error .duplicateName
    else .ok { r with stack := r.stack ++ [mkLayer path methods opts] }
  | none => .ok { r with stack := r.stack ++ [mkLayer path methods opts] }

/-- Modelled from the spec: `Router.route` — scan the stack in
registration order and return the first Layer carrying the given name, or
the boolean `false` when none does. -/
def routeAux (n : Str) : List Layer → Sum Layer Bool
  | [] => .inr false
  | l :: rest => if !l.name.isEmpty && l.name == n then .inl l else routeAux n rest

/-- Lookup a route by name (`Router.route` of `lib/router.d.ts`, declared
return type `Layer | boolean`). -/
def RouterM.route (r : RouterM) (n : Str) : Sum Layer Bool :=
  routeAux n r.stack

/-- Modelled from the spec: `Router.url` — look up the named route,
returning `RouteNotFoundError` as an error value (never thrown, per the
declared `string | Error` contract) when the name is unknown, and
delegating to `Layer.url` otherwise. -/
def RouterM.url (r : RouterM) (n : Str) (ps : Dict) : Except UrlError Str :=
  match r.stack.find? (fun l => !l.name.isEmpty && l.name == n) with
  | some l => l.url ps
  | none => .error .routeNotFound

/-- Result of `Router.match` (`MatchedResult` of `lib/router.d.ts`): the
path-matching Layers, the sublist also matching the method, and whether a
genuine route (a Layer with a non-empty method set) method-matched. -/
structure MatchedResult where
  path : List Layer
  pathAndMethod : List Layer
  route : Bool
deriving DecidableEq

/-- Modelled from the spec: whether a Layer's method set accepts a method —
an empty method set (plain middleware) accepts any method. -/
def methodOk (l : Layer) (method : Str) : Bool :=
  l.methods.isEmpty || l.methods.any (fun m => m == method)

/-- Modelled from the spec: `Router.match` — iterate the stack in
registration order collecting path matches and path-and-method matches
(`match` is a reserved word in Lean). -/
def RouterM.matchReq (r : RouterM) (path method : Str) : MatchedResult :=
  let pm := r.stack.filter (fun l => l.matches path)
  { path := pm
  , pathAndMethod := pm.filter (fun l => methodOk l method)
  , route := pm.any (fun l => methodOk l method && !l.methods.isEmpty) }

/-- Modelled from the spec: the union of the method sets of a list of
Layers, deduplicated in first-occurrence order (the `Allow` header
contents computed by `allowedMethods`). -/
def addMethods (acc : List Str) (ms : List Str) : List Str :=
  ms.foldl (fun a m => if m ∈ a then a else a ++ [m]) acc

/-- Union of the method sets of the given Layers. -/
def allowUnion (layers : List Layer) : List Str :=
  layers.foldl (fun a l => addMethods a l.methods) []

/-- Modelled from the spec: the observable outcome of running the composed
`routes()` handler followed by `allowedMethods()` (default options) on one
request: a route handled it, control fell through to the host, or a
synthesized `OPTIONS` 200 / 405 / 501 response with its `Allow` list. -/
inductive DispatchOutcome
  | handled
  | fallsThrough
  | optionsOk (allow : List Str)
  | methodNotAllowed (allow : List Str)
  | notImplemented
deriving DecidableEq

/-- Modelled from the spec: dispatch of one request through `routes()`
composed with `allowedMethods()` under default options.  When a route
method-matches, its chain runs (`handled`); otherwise `allowedMethods`
synthesizes 501 for an unimplemented method, 200 with `Allow` for
`OPTIONS`, 405 with `Allow` when some path-matching route accepts another
verb, and falls through to the host otherwise. -/
def RouterM.dispatch (r : RouterM) (path method : Str) : DispatchOutcome :=
  let m := r.matchReq path method
  if m.route then .handled
  else
    let allowed := allowUnion m.path
    if !(r.methods.any (fun x => x == method)) then .notImplemented
    else if !allowed.isEmpty then
      if method = str "OPTIONS" then .optionsOk allowed
      else if !(allowed.any (fun x => x == method)) then .methodNotAllowed allowed
      else .fallsThrough
    else .fallsThrough

/-- The composed dispatch handler returned by `Router.routes`
(`lib/router.d.ts`), observed through its dispatch outcome. -/
def RouterM.routes (r : RouterM) : Str → Str → DispatchOutcome :=
  fun path method => r.dispatch path method

/-- Modelled from the spec: the body of the `Router.match` iteration
written as the explicit loop over the stack with an accumulator, as the
implementation behind `middleware()` performs it. -/
def matchLoop (path method : Str) : List Layer → MatchedResult → MatchedResult
  | [], acc => acc
  | l :: rest, acc =>
    matchLoop path method rest
      (if l.matches path then
        { path := acc.path ++ [l]
        , pathAndMethod :=
            if methodOk l method then acc.pathAndMethod ++ [l] else acc.pathAndMethod
        , route := acc.route || (methodOk l method && !l.methods.isEmpty) }
      else acc)

/-- The dispatch handler returned by `Router.middleware`
(`lib/router.d.ts` declares it alongside `routes`), built from the
loop-style matcher. -/
def RouterM.middleware (r : RouterM) : Str → Str → DispatchOutcome :=
  fun path method =>
    let m := matchLoop path method r.stack { path := [], pathAndMethod := [], route := false }
    if m.route then .handled
    else
      let allowed := allowUnion m.path
      if !(r.methods.any (fun x => x == method)) then .notImplemented
      else if !allowed.isEmpty then
        if method = str "OPTIONS" then .optionsOk allowed
        else if !(allowed.any (fun x => x == method)) then .methodNotAllowed allowed
        else .fallsThrough
      else .fallsThrough

/-- Modelled from the spec: `Router.use` with a path and a nested Router —
the nested router's Layers are re-prefixed with the mount path and merged
into the parent's stack. -/
def RouterM.use (r : RouterM) (pre : Str) (child : RouterM) : RouterM :=
  { r with stack := r.stack ++ child.stack.map (Layer.setPfx pre) }

/-! ### Lemmas about parameter maps -/

theorem dictGet_dictSet_self (d : Dict) (k v : Str) :
    dictGet (dictSet d k v) k = some v := by
  induction d with
  | nil => simp [dictGet, dictSet]
  | cons p d ih =>
    by_cases hp : p.1 = k
    · simp [dictGet, dictSet, hp]
    · simp [dictGet, dictSet, hp, ih]

theorem dictGet_dictSet_ne (d : Dict) (k v k' : Str) (h : k' ≠ k) :
    dictGet (dictSet d k v) k' = dictGet d k' := by
  have hk : ¬ k = k' := fun e => h e.symm
  induction d with
  | nil => simp [dictGet, dictSet, hk]
  | cons p d ih =>
    by_cases hp : p.1 = k
    · have hpk : ¬ p.1 = k' := by rw [hp]; exact hk
      simp [dictGet, dictSet, hp, hk, hpk]
    · by_cases hq : p.1 = k'
      · simp [dictGet, dictSet, hp, hq, h]
      · simp [dictGet, dictSet, hp, hq, ih]

/-! ### Lemmas about the Allow-header union -/

theorem mem_addMethods (acc ms : List Str) (m : Str) :
    m ∈ addMethods acc ms ↔ m ∈ acc ∨ m ∈ ms := by
  induction ms generalizing acc with
  | nil => simp [addMethods]
  | cons m0 ms ih =>
    by_cases h0 : m0 ∈ acc
    · have h1 : addMethods acc (m0 :: ms) = addMethods acc ms := by
        simp [addMethods, h0]
      rw [h1, ih]
      constructor
      · rintro (h | h)
        · exact Or.inl h
        · exact Or.inr (List.mem_cons_of_mem _ h)
      · rintro (h | h)
        · exact Or.inl h
        · rcases List.mem_cons.mp h with rfl | h
          · exact Or.inl h0
          · exact Or.inr h
    · have h1 : addMethods acc (m0 :: ms) = addMethods (acc ++ [m0]) ms := by
        simp [addMethods, h0]
      rw [h1, ih]
      constructor
      · rintro (h | h)
        · rcases List.mem_append.mp h with h | h
          · exact Or.inl h
          · simp only [List.mem_singleton] at h
            exact Or.inr (by simp [h])
        · exact Or.inr (List.mem_cons_of_mem _ h)
      · rintro (h | h)
        · exact Or.inl (List.mem_append.mpr (Or.inl h))
        · rcases List.mem_cons.mp h with rfl | h
          · exact Or.inl (List.mem_append.mpr (Or.inr (by simp)))
          · exact Or.inr h

theorem mem_allowUnion_aux (layers : List Layer) (acc : List Str) (m : Str) :
    m ∈ layers.foldl (fun a l => addMethods a l.methods) acc ↔
      m ∈ acc ∨ ∃ l ∈ layers, m ∈ l.methods := by
  induction layers generalizing acc with
  | nil => simp
  | cons l0 ls ih =>
    simp only [List.foldl_cons]
    rw [ih]
    rw [mem_addMethods]
    constructor
    · rintro (⟨h | h⟩ | ⟨l, hl, hm⟩)
      · exact Or.inl h
      · exact Or.inr ⟨l0, by simp, h⟩
      · exact Or.inr ⟨l, List.mem_cons_of_mem _ hl, hm⟩
    · rintro (h | ⟨l, hl, hm⟩)
      · exact Or.inl (Or.inl h)
      · rcases List.mem_cons.mp hl with rfl | hl
        · exact Or.inl (Or.inr hm)
        · exact Or.inr ⟨l, hl, hm⟩

theorem mem_allowUnion (layers : List Layer) (m : Str) :
    m ∈ allowUnion layers ↔ ∃ l ∈ layers, m ∈ l.methods := by
  simpa using mem_allowUnion_aux layers [] m

/-! ### Lemmas about request matching and dispatch -/

theorem matchReq_path (r : RouterM) (path method : Str) :
    (r.matchReq path method).path = r.stack.filter (fun l => l.matches path) := rfl

theorem matchReq_route (r : RouterM) (path method : Str) :
    (r.matchReq path method).route =
      (r.stack.filter (fun l => l.matches path)).any
        (fun l => methodOk l method && !l.methods.isEmpty) := rfl

theorem matchReq_route_false (r : RouterM) (path method : Str)
    (hm : ∀ l ∈ (r.matchReq path method).path, l.methods ≠ [] ∧ method ∉ l.methods) :
    (r.matchReq path method).route = false := by
  rw [matchReq_route, List.any_eq_false]
  intro l hl
  obtain ⟨h1, h2⟩ := hm l (by rw [matchReq_path]; exact hl)
  have e1 : l.methods.isEmpty = false := by
    simpa [List.isEmpty_iff] using h1
  have e2 : (l.methods.any fun m => m == method) = false := by
    rw [List.any_eq_false]
    intro x hx hb
    exact h2 (beq_iff_eq.mp hb ▸ hx)
  simp [methodOk, e1, e2]

theorem allowUnion_isEmpty_false (r : RouterM) (path method : Str)
    (hne : (r.matchReq path method).path ≠ [])
    (hm : ∀ l ∈ (r.matchReq path method).path, l.methods ≠ []) :
    (allowUnion (r.matchReq path method).path).isEmpty = false := by
  obtain ⟨l, hl⟩ := List.exists_mem_of_ne_nil _ hne
  obtain ⟨m, hmem⟩ := List.exists_mem_of_ne_nil _ (hm l hl)
  have : m ∈ allowUnion (r.matchReq path method).path :=
    (mem_allowUnion _ _).mpr ⟨l, hl, hmem⟩
  rcases h : (allowUnion (r.matchReq path method).path) with _ | _
  · rw [h] at this; cases this
  · rfl

theorem allowUnion_not_mem (r : RouterM) (path method : Str)
    (hm : ∀ l ∈ (r.matchReq path method).path, method ∉ l.methods) :
    ((allowUnion (r.matchReq path method).path).any fun x => x == method) = false := by
  rw [List.any_eq_false]
  intro x hx hb
  have hx' := (mem_allowUnion _ _).mp hx
  obtain ⟨l, hl, hmem⟩ := hx'
  exact hm l hl (beq_iff_eq.mp hb ▸ hmem)

/-! ### Claim C1 -/

/-- C1 counterexample: the claim quantifies over every request whose method
is in no path-matching route's method set, but an `OPTIONS` request whose
path matches a `GET` route satisfies that hypothesis and is answered with
status 200 and an `Allow` header (the `OPTIONS` branch of
`allowedMethods`), not 405. -/
theorem C1_counterexample :
    (mkLayer (str "/x") [str "GET"] {}).matches (str "/x") = true ∧
    str "OPTIONS" ∉ (mkLayer (str "/x") [str "GET"] {}).methods ∧
    RouterM.dispatch { stack := [mkLayer (str "/x") [str "GET"] {}] }
        (str "/x") (str "OPTIONS") ≠
      DispatchOutcome.methodNotAllowed
        (allowUnion (RouterM.matchReq { stack := [mkLayer (str "/x") [str "GET"] {}] }
          (str "/x") (str "OPTIONS")).path) ∧
    RouterM.dispatch { stack := [mkLayer (str "/x") [str "GET"] {}] }
        (str "/x") (str "OPTIONS") =
      DispatchOutcome.optionsOk [str "HEAD", str "GET"] := by
  decide

/-- C1 (amended): for every router and request whose path matches at least
one registered route while the request method — an implemented method other
than `OPTIONS` — is in no path-matching route's method set, dispatching
through `routes()` plus `allowedMethods()` under default options yields
status 405 with an `Allow` header equal to exactly the union of the method
sets of all path-matching routes. -/
theorem C1_methodNotAllowed_allow_union (r : RouterM) (path method : Str)
    (himp : method ∈ r.methods) (hopt : method ≠ str "OPTIONS")
    (hne : (r.matchReq path method).path ≠ [])
    (hm : ∀ l ∈ (r.matchReq path method).path, l.methods ≠ [] ∧ method ∉ l.methods) :
    r.dispatch path method =
      DispatchOutcome.methodNotAllowed (allowUnion (r.matchReq path method).path) ∧
    ∀ m, m ∈ allowUnion (r.matchReq path method).path ↔
      ∃ l ∈ (r.matchReq path method).path, m ∈ l.methods := by
  constructor
  · have hroute := matchReq_route_false r path method hm
    have himpb : (r.methods.any fun x => x == method) = true := by
      rw [List.any_eq_true]
      exact ⟨method, himp, beq_iff_eq.mpr rfl⟩
    have hallow := allowUnion_isEmpty_false r path method hne
      (fun l hl => (hm l hl).1)
    have hmem := allowUnion_not_mem r path method (fun l hl => (hm l hl).2)
    simp only [RouterM.dispatch, hroute, himpb, hallow, hmem, Bool.not_true,
      Bool.not_false, if_false, if_true, Bool.false_eq_true, ite_false, ite_true]
    rw [if_neg hopt]
  · intro m
    exact mem_allowUnion _ m

/-- C1 witness: a concrete instantiation of the amended claim — a router
with a single `GET /x` route answers `POST /x` with 405 and
`Allow: HEAD, GET`. -/
theorem C1_witness :
    (str "POST" ∈ (RouterM.mk defaultMethods [mkLayer (str "/x") [str "GET"] {}]).methods ∧
     str "POST" ≠ str "OPTIONS" ∧
     ((RouterM.mk defaultMethods [mkLayer (str "/x") [str "GET"] {}]).matchReq
        (str "/x") (str "POST")).path ≠ [] ∧
     (∀ l ∈ ((RouterM.mk defaultMethods [mkLayer (str "/x") [str "GET"] {}]).matchReq
        (str "/x") (str "POST")).path, l.methods ≠ [] ∧ str "POST" ∉ l.methods)) ∧
    (RouterM.mk defaultMethods [mkLayer (str "/x") [str "GET"] {}]).dispatch
        (str "/x") (str "POST") =
      DispatchOutcome.methodNotAllowed
        (allowUnion ((RouterM.mk defaultMethods [mkLayer (str "/x") [str "GET"] {}]).matchReq
          (str "/x") (str "POST")).path) :=
  ⟨⟨by decide, by decide, by decide, by decide⟩,
    (C1_methodNotAllowed_allow_union _ _ _ (by decide) (by decide) (by decide) (by decide)).1⟩

/-! ### Claim C2 -/

/-- C2: when the routes path-matching a given path are exactly routes for
`GET` and `POST` (their stored method sets, `HEAD` included alongside `GET`
as registration guarantees), an `OPTIONS` request dispatched through
`routes()` plus `allowedMethods()` yields status 200 with an `Allow`
header listing exactly `GET`, `POST` and `HEAD`; and `HEAD` is present
because Layer construction implies `HEAD` whenever `GET` is among the
registered methods. -/
theorem C2_options_allow (r : RouterM) (path : Str)
    (himp : str "OPTIONS" ∈ r.methods)
    (hget : ∃ l ∈ (r.matchReq path (str "OPTIONS")).path, str "GET" ∈ l.methods)
    (hpost : ∃ l ∈ (r.matchReq path (str "OPTIONS")).path, str "POST" ∈ l.methods)
    (hsub : ∀ l ∈ (r.matchReq path (str "OPTIONS")).path,
      l.methods ≠ [] ∧ ∀ m ∈ l.methods, m = str "HEAD" ∨ m = str "GET" ∨ m = str "POST")
    (hhead : ∀ l ∈ (r.matchReq path (str "OPTIONS")).path,
      str "GET" ∈ l.methods → str "HEAD" ∈ l.methods) :
    (r.dispatch path (str "OPTIONS") =
        DispatchOutcome.optionsOk (allowUnion (r.matchReq path (str "OPTIONS")).path) ∧
      ∀ m, m ∈ allowUnion (r.matchReq path (str "OPTIONS")).path ↔
        (m = str "HEAD" ∨ m = str "GET" ∨ m = str "POST")) ∧
    ∀ pat ms o, str "GET" ∈ ms.map upper → str "HEAD" ∈ (mkLayer pat ms o).methods := by
  refine ⟨⟨?_, ?_⟩, ?_⟩
  · have hm : ∀ l ∈ (r.matchReq path (str "OPTIONS")).path,
        l.methods ≠ [] ∧ str "OPTIONS" ∉ l.methods := by
      intro l hl
      refine ⟨(hsub l hl).1, fun hin => ?_⟩
      rcases (hsub l hl).2 _ hin with h | h | h <;> exact absurd h (by decide)
    have hne : (r.matchReq path (str "OPTIONS")).path ≠ [] := by
      obtain ⟨l, hl, _⟩ := hget
      exact List.ne_nil_of_mem hl
    have hroute := matchReq_route_false r path (str "OPTIONS") hm
    have himpb : (r.methods.any fun x => x == str "OPTIONS") = true := by
      rw [List.any_eq_true]
      exact ⟨_, himp, beq_iff_eq.mpr rfl⟩
    have hallow := allowUnion_isEmpty_false r path (str "OPTIONS") hne
      (fun l hl => (hm l hl).1)
    simp only [RouterM.dispatch, hroute, himpb, hallow, Bool.not_true,
      Bool.not_false, Bool.false_eq_true, ite_false, ite_true, if_true]
  · intro m
    rw [mem_allowUnion]
    constructor
    · rintro ⟨l, hl, hmem⟩
      exact (hsub l hl).2 _ hmem
    · rintro (rfl | rfl | rfl)
      · obtain ⟨l, hl, hmem⟩ := hget
        exact ⟨l, hl, hhead l hl hmem⟩
      · exact hget
      · exact hpost
  · intro pat ms o hg
    have hml : (mkLayer pat ms o).methods =
        if ((ms.map upper).any fun m => m == str "GET") &&
           !((ms.map upper).any fun m => m == str "HEAD")
        then str "HEAD" :: ms.map upper else ms.map upper := rfl
    rw [hml]
    by_cases hc : (((ms.map upper).any fun m => m == str "GET") &&
        !((ms.map upper).any fun m => m == str "HEAD")) = true
    · rw [if_pos hc]
      exact List.mem_cons_self _ _
    · rw [if_neg hc]
      have hgb : ((ms.map upper).any fun m => m == str "GET") = true := by
        rw [List.any_eq_true]; exact ⟨_, hg, beq_iff_eq.mpr rfl⟩
      have hhb : ((ms.map upper).any fun m => m == str "HEAD") = true := by
        rcases Bool.eq_false_or_eq_true ((ms.map upper).any fun m => m == str "HEAD") with h | h
        · exact h
        · exact absurd (by rw [hgb, h]; rfl) hc
      obtain ⟨x, hx, hb⟩ := List.any_eq_true.mp hhb
      exact beq_iff_eq.mp hb ▸ hx

/-- C2 witness: a router with `GET /y` and `POST /y` routes answers
`OPTIONS /y` with status 200 and `Allow: HEAD, GET, POST`. -/
theorem C2_witness :
    (str "OPTIONS" ∈ (RouterM.mk defaultMethods
        [mkLayer (str "/y") [str "GET"] {}, mkLayer (str "/y") [str "POST"] {}]).methods ∧
     (∃ l ∈ ((RouterM.mk defaultMethods
        [mkLayer (str "/y") [str "GET"] {}, mkLayer (str "/y") [str "POST"] {}]).matchReq
          (str "/y") (str "OPTIONS")).path, str "GET" ∈ l.methods)) ∧
    (RouterM.mk defaultMethods
        [mkLayer (str "/y") [str "GET"] {}, mkLayer (str "/y") [str "POST"] {}]).dispatch
        (str "/y") (str "OPTIONS") =
      DispatchOutcome.optionsOk
        (allowUnion ((RouterM.mk defaultMethods
          [mkLayer (str "/y") [str "GET"] {}, mkLayer (str "/y") [str "POST"] {}]).matchReq
            (str "/y") (str "OPTIONS")).path) :=
  ⟨⟨by decide, by decide⟩,
    ((C2_options_allow _ _ (by decide) (by decide) (by decide) (by decide) (by decide)).1).1⟩

/-! ### Claim C4 -/

/-- C4: mounting a child router containing a `GET /:pid` route into any
parent router at the prefix `/forums/:fid/posts` makes the request path
`/forums/123/posts/55` match the re-prefixed route (also at the router
level, for method `GET`), and the extracted parameter map is
`{fid: "123", pid: "55"}`. -/
theorem C4_nested_mount_params (parent child : RouterM)
    (hmem : mkLayer (str "/:pid") [str "GET"] {} ∈ child.stack) :
    Layer.setPfx (str "/forums/:fid/posts") (mkLayer (str "/:pid") [str "GET"] {}) ∈
      (parent.use (str "/forums/:fid/posts") child).stack ∧
    Layer.setPfx (str "/forums/:fid/posts") (mkLayer (str "/:pid") [str "GET"] {}) ∈
      ((parent.use (str "/forums/:fid/posts") child).matchReq
        (str "/forums/123/posts/55") (str "GET")).pathAndMethod ∧
    (Layer.setPfx (str "/forums/:fid/posts")
      (mkLayer (str "/:pid") [str "GET"] {})).matches (str "/forums/123/posts/55") = true ∧
    (Layer.setPfx (str "/forums/:fid/posts") (mkLayer (str "/:pid") [str "GET"] {})).params
        (str "/forums/123/posts/55")
        ((Layer.setPfx (str "/forums/:fid/posts")
          (mkLayer (str "/:pid") [str "GET"] {})).captures (str "/forums/123/posts/55")) [] =
      [(str "fid", str "123"), (str "pid", str "55")] := by
  have hstack : Layer.setPfx (str "/forums/:fid/posts") (mkLayer (str "/:pid") [str "GET"] {}) ∈
      (parent.use (str "/forums/:fid/posts") child).stack :=
    List.mem_append.mpr (Or.inr (List.mem_map_of_mem _ hmem))
  refine ⟨hstack, ?_, by decide, by decide⟩
  have h1 : Layer.setPfx (str "/forums/:fid/posts") (mkLayer (str "/:pid") [str "GET"] {}) ∈
      (parent.use (str "/forums/:fid/posts") child).stack.filter
        (fun l => l.matches (str "/forums/123/posts/55")) :=
    List.mem_filter.mpr ⟨hstack, by decide⟩
  exact List.mem_filter.mpr ⟨h1, by decide⟩

/-- C4 witness: the mount of a one-route child into an empty parent. -/
theorem C4_witness :
    (mkLayer (str "/:pid") [str "GET"] {} ∈
      (RouterM.mk defaultMethods [mkLayer (str "/:pid") [str "GET"] {}]).stack) ∧
    (Layer.setPfx (str "/forums/:fid/posts") (mkLayer (str "/:pid") [str "GET"] {})).params
        (str "/forums/123/posts/55")
        ((Layer.setPfx (str "/forums/:fid/posts")
          (mkLayer (str "/:pid") [str "GET"] {})).captures (str "/forums/123/posts/55")) [] =
      [(str "fid", str "123"), (str "pid", str "55")] :=
  ⟨by decide,
    (C4_nested_mount_params (RouterM.mk defaultMethods [])
      (RouterM.mk defaultMethods [mkLayer (str "/:pid") [str "GET"] {}]) (by decide)).2.2.2⟩

/-! ### Claim C6 -/

/-- C6: registering a route under a name already carried by a route of the
same router fails with `DuplicateNameError`, while registering the same
name on two different routers succeeds on both; after mounting the second
router into the first, both same-named routes coexist in the combined
stack. -/
theorem C6_duplicate_name (r1 r2 : RouterM) (n : Str)
    (pat1 pat2 pat3 : Str) (ms1 ms2 ms3 : List Str) (o1 o2 o3 : LayerOption)
    (ho1 : o1.name = some n) (ho2 : o2.name = some n) (ho3 : o3.name = some n)
    (h1 : ∀ l ∈ r1.stack, l.name ≠ n) (h2 : ∀ l ∈ r2.stack, l.name ≠ n) :
    (r1.register pat1 ms1 o1 =
        .ok (RouterM.mk r1.methods (r1.stack ++ [mkLayer pat1 ms1 o1])) ∧
      (RouterM.mk r1.methods (r1.stack ++ [mkLayer pat1 ms1 o1])).register pat2 ms2 o2 =
        .error .duplicateName) ∧
    r2.register pat3 ms3 o3 =
      .ok (RouterM.mk r2.methods (r2.stack ++ [mkLayer pat3 ms3 o3])) ∧
    ∀ pre, 2 ≤ (((RouterM.mk r1.methods (r1.stack ++ [mkLayer pat1 ms1 o1])).use pre
        (RouterM.mk r2.methods (r2.stack ++ [mkLayer pat3 ms3 o3]))).stack.filter
          (fun l => l.name == n)).length := by
  have hname1 : (mkLayer pat1 ms1 o1).name = n := by
    show o1.name.getD [] = n
    rw [ho1]; rfl
  have hname3 : (mkLayer pat3 ms3 o3).name = n := by
    show o3.name.getD [] = n
    rw [ho3]; rfl
  have hany1 : (r1.stack.any fun l => l.name == n) = false := by
    rw [List.any_eq_false]
    intro l hl hb
    exact h1 l hl (beq_iff_eq.mp hb)
  have hany2 : (r2.stack.any fun l => l.name == n) = false := by
    rw [List.any_eq_false]
    intro l hl hb
    exact h2 l hl (beq_iff_eq.mp hb)
  refine ⟨⟨?_, ?_⟩, ?_, ?_⟩
  · simp only [RouterM.register, ho1, hany1, Bool.false_eq_true, ite_false]
  · have hin : ((r1.stack ++ [mkLayer pat1 ms1 o1]).any fun l => l.name == n) = true := by
      rw [List.any_eq_true]
      exact ⟨mkLayer pat1 ms1 o1, List.mem_append.mpr (Or.inr (by simp)),
        beq_iff_eq.mpr hname1⟩
    simp only [RouterM.register, ho2]
    rw [hin]
    rfl
  · simp only [RouterM.register, ho3, hany2, Bool.false_eq_true, ite_false]
  · intro pre
    have hpfx : ∀ l : Layer, (Layer.setPfx pre l).name = l.name := fun _ => rfl
    have e1 : ((RouterM.mk r1.methods (r1.stack ++ [mkLayer pat1 ms1 o1])).use pre
        (RouterM.mk r2.methods (r2.stack ++ [mkLayer pat3 ms3 o3]))).stack =
        (r1.stack ++ [mkLayer pat1 ms1 o1]) ++
          ((r2.stack ++ [mkLayer pat3 ms3 o3]).map (Layer.setPfx pre)) := rfl
    rw [e1, List.filter_append]
    rw [List.length_append]
    have ha : 1 ≤ ((r1.stack ++ [mkLayer pat1 ms1 o1]).filter
        (fun l => l.name == n)).length := by
      have : mkLayer pat1 ms1 o1 ∈ (r1.stack ++ [mkLayer pat1 ms1 o1]).filter
          (fun l => l.name == n) :=
        List.mem_filter.mpr ⟨List.mem_append.mpr (Or.inr (by simp)),
          beq_iff_eq.mpr hname1⟩
      exact List.length_pos.mpr (List.ne_nil_of_mem this)
    have hb : 1 ≤ (((r2.stack ++ [mkLayer pat3 ms3 o3]).map (Layer.setPfx pre)).filter
        (fun l => l.name == n)).length := by
      have : Layer.setPfx pre (mkLayer pat3 ms3 o3) ∈
          ((r2.stack ++ [mkLayer pat3 ms3 o3]).map (Layer.setPfx pre)).filter
            (fun l => l.name == n) :=
        List.mem_filter.mpr
          ⟨List.mem_map_of_mem _ (List.mem_append.mpr (Or.inr (by simp))),
            by rw [hpfx]; exact beq_iff_eq.mpr hname3⟩
      exact List.length_pos.mpr (List.ne_nil_of_mem this)
    omega

/-- C6 witness: a concrete instantiation with the same name `dup` on a
fresh router twice and on a second fresh router once. -/
theorem C6_witness :
    ((RouterM.mk defaultMethods []).register (str "/a") [str "GET"]
        { name := some (str "dup") } =
      .ok (RouterM.mk defaultMethods
        ([] ++ [mkLayer (str "/a") [str "GET"] { name := some (str "dup") }]))) ∧
    ((RouterM.mk defaultMethods
        ([] ++ [mkLayer (str "/a") [str "GET"] { name := some (str "dup") }])).register
        (str "/b") [str "GET"] { name := some (str "dup") } = .error .duplicateName) :=
  ⟨((C6_duplicate_name (RouterM.mk defaultMethods []) (RouterM.mk defaultMethods [])
      (str "dup") (str "/a") (str "/b") (str "/c") [str "GET"] [str "GET"] [str "GET"]
      { name := some (str "dup") } { name := some (str "dup") } { name := some (str "dup") }
      rfl rfl rfl (by decide) (by decide)).1).1,
   ((C6_duplicate_name (RouterM.mk defaultMethods []) (RouterM.mk defaultMethods [])
      (str "dup") (str "/a") (str "/b") (str "/c") [str "GET"] [str "GET"] [str "GET"]
      { name := some (str "dup") } { name := some (str "dup") } { name := some (str "dup") }
      rfl rfl rfl (by decide) (by decide)).1).2⟩

/-! ### Claim C7 -/

theorem mem_paramNames_of_seg (l : Layer) (n : Str)
    (h : Seg.param n ∈ parsePattern l.path) : n ∈ l.paramNames := by
  unfold Layer.paramNames
  exact List.mem_filterMap.mpr ⟨Seg.param n, h, rfl⟩

theorem renderSegs_ok_of_covered (ps : Dict) (segs : List Seg)
    (h : ∀ n, Seg.param n ∈ segs → (dictGet ps n).isSome = true) :
    ∃ pieces, renderSegs ps segs = .ok pieces := by
  induction segs with
  | nil => exact ⟨[], rfl⟩
  | cons sg rest ih =>
    obtain ⟨pcs, hpcs⟩ := ih (fun n hn => h n (List.mem_cons_of_mem _ hn))
    cases sg with
    | lit s => exact ⟨s :: pcs, by simp [renderSegs, renderSeg, hpcs]⟩
    | param n =>
      have := h n (by simp)
      obtain ⟨v, hv⟩ := Option.isSome_iff_exists.mp this
      exact ⟨percentEncode v :: pcs, by simp [renderSegs, renderSeg, hv, hpcs]⟩

/-- C7: `Router.url` honours its declared `string | Error` contract — for
a name carried by no registered route it returns the `RouteNotFoundError`
error value (it cannot throw: the model is a total function into
`Except`), and for a registered name whose parameters are all supplied it
returns a string. -/
theorem C7_url_error_value :
    (∀ (r : RouterM) (n : Str) (ps : Dict),
      (∀ l ∈ r.stack, ¬(l.name ≠ [] ∧ l.name = n)) →
      r.url n ps = .error .routeNotFound) ∧
    (∀ (r : RouterM) (n : Str) (ps : Dict) (l : Layer),
      r.stack.find? (fun l => !l.name.isEmpty && l.name == n) = some l →
      (∀ m ∈ l.paramNames, (dictGet ps m).isSome = true) →
      ∃ s, r.url n ps = .ok s) := by
  constructor
  · intro r n ps h
    have hnone : r.stack.find? (fun l => !l.name.isEmpty && l.name == n) = none := by
      rw [List.find?_eq_none]
      intro l hl
      intro hb
      rw [Bool.and_eq_true] at hb
      obtain ⟨hb1, hb2⟩ := hb
      exact h l hl ⟨by simpa [List.isEmpty_iff] using hb1, beq_iff_eq.mp hb2⟩
    unfold RouterM.url
    rw [hnone]
  · intro r n ps l hfind hcov
    unfold RouterM.url
    rw [hfind]
    obtain ⟨pieces, hp⟩ := renderSegs_ok_of_covered ps (parsePattern l.path)
      (fun m hm => hcov m (mem_paramNames_of_seg l m hm))
    refine ⟨joinSlash pieces, ?_⟩
    show (renderSegs ps (parsePattern l.path)).map joinSlash = Except.ok (joinSlash pieces)
    rw [hp]
    rfl

/-- C7 witness: unknown name `ghost` yields the error value; known name
`user` with its `id` parameter supplied yields a string. -/
theorem C7_witness :
    ((RouterM.mk defaultMethods
        [mkLayer (str "/users/:id") [str "GET"] { name := some (str "user") }]).url
        (str "ghost") [(str "id", str "3")] = .error .routeNotFound) ∧
    ∃ s, (RouterM.mk defaultMethods
        [mkLayer (str "/users/:id") [str "GET"] { name := some (str "user") }]).url
        (str "user") [(str "id", str "3")] = .ok s :=
  ⟨C7_url_error_value.1 _ _ _ (by decide),
   C7_url_error_value.2 _ _ _
     (mkLayer (str "/users/:id") [str "GET"] { name := some (str "user") })
     (by decide) (by decide)⟩

/-! ### Claim C9 -/

theorem routeAux_eq_find? (n : Str) (ls : List Layer) :
    routeAux n ls =
      match ls.find? (fun l => !l.name.isEmpty && l.name == n) with
      | some l => Sum.inl l
      | none => Sum.inr false := by
  induction ls with
  | nil => rfl
  | cons l ls ih =>
    by_cases h : (!l.name.isEmpty && l.name == n) = true
    · rw [List.find?_cons_of_pos (p := fun l => !l.name.isEmpty && l.name == n) ls h]
      simp [routeAux, h]
    · rw [List.find?_cons_of_neg (p := fun l => !l.name.isEmpty && l.name == n) ls h]
      rw [show routeAux n (l :: ls) = routeAux n ls by
        simp [routeAux, h]]
      exact ih

/-- C9: `Router.route` returns the first registered Layer whose (non-empty)
name equals the requested name, and returns the boolean `false` — not an
error and, the model being a total function, not an exception — when no
registered route carries the name. -/
theorem C9_route_lookup :
    (∀ (r : RouterM) (n : Str) (l : Layer),
      r.stack.find? (fun l => !l.name.isEmpty && l.name == n) = some l →
      r.route n = Sum.inl l) ∧
    (∀ (r : RouterM) (n : Str),
      (∀ l ∈ r.stack, l.name = [] ∨ l.name ≠ n) →
      r.route n = Sum.inr false) := by
  constructor
  · intro r n l h
    unfold RouterM.route
    rw [routeAux_eq_find?, h]
  · intro r n h
    have hnone : r.stack.find? (fun l => !l.name.isEmpty && l.name == n) = none := by
      rw [List.find?_eq_none]
      intro l hl hb
      rw [Bool.and_eq_true] at hb
      obtain ⟨hb1, hb2⟩ := hb
      rcases h l hl with h' | h'
      · rw [List.isEmpty_iff.mpr h'] at hb1
        cases hb1
      · exact h' (beq_iff_eq.mp hb2)
    unfold RouterM.route
    rw [routeAux_eq_find?, hnone]

/-- C9 witness: lookup of the first of two same-named layers, and the
boolean `false` for an unknown name. -/
theorem C9_witness :
    ((RouterM.mk defaultMethods
        [mkLayer (str "/a") [str "GET"] { name := some (str "user") },
         mkLayer (str "/b") [str "GET"] { name := some (str "user") }]).route
        (str "user") =
      Sum.inl (mkLayer (str "/a") [str "GET"] { name := some (str "user") })) ∧
    ((RouterM.mk defaultMethods
        [mkLayer (str "/a") [str "GET"] { name := some (str "user") }]).route
        (str "ghost") = Sum.inr false) :=
  ⟨C9_route_lookup.1 _ _ _ (by decide), C9_route_lookup.2 _ _ (by decide)⟩

/-! ### Claim C10 -/

theorem matchLoop_eq (path method : Str) (stack : List Layer) (acc : MatchedResult) :
    matchLoop path method stack acc =
      { path := acc.path ++ stack.filter (fun l => l.matches path)
      , pathAndMethod := acc.pathAndMethod ++
          (stack.filter (fun l => l.matches path)).filter (fun l => methodOk l method)
      , route := acc.route ||
          (stack.filter (fun l => l.matches path)).any
            (fun l => methodOk l method && !l.methods.isEmpty) } := by
  induction stack generalizing acc with
  | nil => simp [matchLoop]
  | cons l ls ih =>
    by_cases hm : l.matches path
    · rw [show matchLoop path method (l :: ls) acc = matchLoop path method ls
        { path := acc.path ++ [l]
        , pathAndMethod :=
            if methodOk l method then acc.pathAndMethod ++ [l] else acc.pathAndMethod
        , route := acc.route || (methodOk l method && !l.methods.isEmpty) } by
          simp [matchLoop, hm]]
      rw [ih]
      by_cases hok : methodOk l method
      · simp [List.filter_cons, hm, hok, Bool.or_assoc]
      · simp [List.filter_cons, hm, hok, Bool.or_assoc]
    · rw [show matchLoop path method (l :: ls) acc = matchLoop path method ls acc by
        simp [matchLoop, hm]]
      rw [ih]
      simp [List.filter_cons, hm]

/-- C10: the dispatch handlers returned by `routes()` and by
`middleware()` are extensionally equal — on every request context (path
and method) they produce the same dispatch outcome; the two names are
aliases of one operation. -/
theorem C10_routes_middleware_alias (r : RouterM) (path method : Str) :
    r.middleware path method = r.routes path method := by
  unfold RouterM.middleware RouterM.routes RouterM.dispatch
  rw [matchLoop_eq]
  simp [RouterM.matchReq]

/-! ### Lemmas about path splitting (for the trailing-slash property) -/

theorem splitSlash_ne_nil (cs : Str) : splitSlash cs ≠ [] := by
  cases cs with
  | nil => simp [splitSlash]
  | cons c cs =>
    by_cases h : c = '/'
    · simp [splitSlash, h]
    · rcases hs : splitSlash cs with _ | ⟨g, gs⟩
      · simp [splitSlash, h, hs]
      · simp [splitSlash, h, hs]

theorem splitSlash_cons_slash (cs : Str) :
    splitSlash ('/' :: cs) = [] :: splitSlash cs := by
  simp [splitSlash]

theorem splitSlash_cons_ne (c : Char) (cs : Str) (h : ¬ c = '/') (g : Str)
    (gs : List Str) (hs : splitSlash cs = g :: gs) :
    splitSlash (c :: cs) = (c :: g) :: gs := by
  simp [splitSlash, h, hs]

theorem splitSlash_concat_slash (p : Str) :
    splitSlash (p ++ ['/']) = splitSlash p ++ [[]] := by
  induction p with
  | nil => rfl
  | cons c p ih =>
    by_cases h : c = '/'
    · subst h
      rw [List.cons_append, splitSlash_cons_slash, splitSlash_cons_slash, ih,
        List.cons_append]
    · rcases hs : splitSlash p with _ | ⟨g, gs⟩
      · exact absurd hs (splitSlash_ne_nil p)
      · have hs' : splitSlash (p ++ ['/']) = g :: (gs ++ [[]]) := by
          rw [ih, hs, List.cons_append]
        rw [List.cons_append, splitSlash_cons_ne c _ h _ _ hs',
          splitSlash_cons_ne c _ h _ _ hs, List.cons_append]

theorem getLast?_splitSlash_ne_empty (cs : Str) (hne : cs ≠ [])
    (hlast : cs.getLast? ≠ some '/') :
    (splitSlash cs).getLast? ≠ some ([] : Str) := by
  induction cs with
  | nil => exact absurd rfl hne
  | cons c cs ih =>
    cases cs with
    | nil =>
      have hc : c ≠ '/' := by
        intro e
        exact hlast (by simp [e])
      simp [splitSlash, hc]
    | cons c2 cs2 =>
      have hlast' : (c2 :: cs2).getLast? ≠ some '/' := by
        rwa [List.getLast?_cons_cons] at hlast
      have ih' := ih (by simp) hlast'
      by_cases h : c = '/'
      · subst h
        rcases hs : splitSlash (c2 :: cs2) with _ | ⟨g, gs⟩
        · exact absurd hs (splitSlash_ne_nil _)
        · rw [splitSlash_cons_slash, hs, List.getLast?_cons_cons]
          rw [hs] at ih'
          exact ih'
      · rcases hs : splitSlash (c2 :: cs2) with _ | ⟨g, gs⟩
        · exact absurd hs (splitSlash_ne_nil _)
        · rw [splitSlash_cons_ne c _ h _ _ hs]
          cases gs with
          | nil => simp
          | cons g2 gs2 =>
            rw [List.getLast?_cons_cons]
            rw [hs] at ih'
            rwa [List.getLast?_cons_cons] at ih'

theorem stripTrailing_concat (cs : Str) (hlast : cs.getLast? ≠ some '/') :
    stripTrailing (splitSlash (cs ++ ['/'])) = stripTrailing (splitSlash cs) := by
  rw [splitSlash_concat_slash]
  have h1 : stripTrailing (splitSlash cs ++ [[]]) = splitSlash cs := by
    unfold stripTrailing
    rw [if_pos]
    · exact List.dropLast_concat
    · constructor
      · rcases hs : splitSlash cs with _ | ⟨g, gs⟩
        · exact absurd hs (splitSlash_ne_nil _)
        · simp
      · exact List.getLast?_concat _
  rw [h1]
  cases hcs : cs with
  | nil =>
    rfl
  | cons c cs2 =>
    have h2 : (splitSlash cs).getLast? ≠ some ([] : Str) := by
      rw [hcs]
      exact getLast?_splitSlash_ne_empty _ (by simp) (hcs ▸ hlast)
    rw [hcs] at h2
    unfold stripTrailing
    rw [if_neg]
    intro hcon
    exact h2 hcon.2

/-! ### Claim C5 -/

/-- C5: for every pattern compiled with the `strict` option unset and every
path not ending in a slash, the compiled matcher accepts the path exactly
when it accepts the path with one trailing slash appended. -/
theorem C5_trailing_slash_nonstrict (pat : Str) (ms : List Str) (o : LayerOption)
    (p : Str) (hstrict : o.strict = false) (hlast : p.getLast? ≠ some '/') :
    (mkLayer pat ms o).matches (p ++ ['/']) = (mkLayer pat ms o).matches p := by
  have hopts : (mkLayer pat ms o).opts = o := rfl
  unfold Layer.matches Layer.doMatch
  rw [hopts, hstrict]
  simp only [Bool.false_eq_true, ite_false]
  rw [stripTrailing_concat p hlast]

/-- C5 witness: the pattern `/users/:id` with `strict` unset accepts
`/users/3/` exactly as it accepts `/users/3` (and, negatively, rejects
`/users/` as it rejects `/users`). -/
theorem C5_witness :
    (({} : LayerOption).strict = false ∧ (str "/users/3").getLast? ≠ some '/') ∧
    (mkLayer (str "/users/:id") [str "GET"] {}).matches (str "/users/3" ++ ['/']) =
      (mkLayer (str "/users/:id") [str "GET"] {}).matches (str "/users/3") :=
  ⟨⟨by decide, by decide⟩,
    C5_trailing_slash_nonstrict (str "/users/:id") [str "GET"] {} (str "/users/3")
      (by decide) (by decide)⟩

/-! ### Lemmas about the parameter-map fold (for C8 and C3) -/

theorem dictGet_fold_preserve (pairs : List (Str × Str)) (d : Dict) (k : Str)
    (h : ∀ p ∈ pairs, p.1 ≠ k) :
    dictGet (pairs.foldl (fun d p => dictSet d p.1 (safeDecode p.2)) d) k =
      dictGet d k := by
  induction pairs generalizing d with
  | nil => rfl
  | cons p pairs ih =>
    rw [List.foldl_cons]
    rw [ih _ (fun q hq => h q (List.mem_cons_of_mem _ hq))]
    exact dictGet_dictSet_ne _ _ _ _ (fun e => h p (by simp) e.symm)

theorem dictGet_zip_fold (names caps : List Str) (d : Dict) (hnd : names.Nodup)
    (i : Nat) (h1 : i < names.length) (h2 : i < caps.length) :
    dictGet ((List.zip names caps).foldl
        (fun d p => dictSet d p.1 (safeDecode p.2)) d)
      (names.get ⟨i, h1⟩) = some (safeDecode (caps.get ⟨i, h2⟩)) := by
  induction names generalizing caps d i with
  | nil => exact absurd h1 (by simp)
  | cons n names ih =>
    cases caps with
    | nil => exact absurd h2 (by simp)
    | cons c caps =>
      cases i with
      | zero =>
        rw [List.zip_cons_cons, List.foldl_cons]
        have hpres : ∀ p ∈ List.zip names caps, p.1 ≠ (n :: names).get ⟨0, h1⟩ := by
          intro p hp e
          rcases p with ⟨a, b⟩
          have hmem := (List.of_mem_zip hp).1
          have hae : a = n := e
          rw [hae] at hmem
          exact (List.nodup_cons.mp hnd).1 hmem
        rw [dictGet_fold_preserve _ _ _ hpres]
        exact dictGet_dictSet_self _ _ _
      | succ i =>
        rw [List.zip_cons_cons, List.foldl_cons]
        exact ih caps _ (List.nodup_cons.mp hnd).2 i _ _

/-! ### Claim C8 -/

/-- C8: `Layer.params` inserts, for the i-th captured value, exactly the
percent-decoded value under the i-th parameter name; when decoding fails
the raw captured value is inserted unchanged.  The operation is a total
function — it never raises, for any path, capture list or existing map. -/
theorem C8_params_decode (l : Layer) (path : Str) (caps : List Str) (existing : Dict)
    (hnd : l.paramNames.Nodup)
    (i : Nat) (h1 : i < l.paramNames.length) (h2 : i < caps.length) :
    dictGet (l.params path caps existing) (l.paramNames.get ⟨i, h1⟩) =
      some (safeDecode (caps.get ⟨i, h2⟩)) ∧
    (∀ s d, percentDecode s = some d → safeDecode s = d) ∧
    (∀ s, percentDecode s = none → safeDecode s = s) := by
  refine ⟨?_, ?_, ?_⟩
  · unfold Layer.params
    exact dictGet_zip_fold _ _ _ hnd i h1 h2
  · intro s d h
    unfold safeDecode
    rw [h]
  · intro s h
    unfold safeDecode
    rw [h]

/-- C8 witness: captures `%41` (decodes to `A`) and `%zz` (decoding
fails, raw value kept) against the pattern `/a/:x/:y`. -/
theorem C8_witness :
    ((mkLayer (str "/a/:x/:y") [str "GET"] {}).paramNames.Nodup ∧
     percentDecode (str "%41") = some (str "A") ∧
     percentDecode (str "%zz") = none ∧
     safeDecode (str "%zz") = str "%zz") ∧
    dictGet ((mkLayer (str "/a/:x/:y") [str "GET"] {}).params (str "/a/%41/%zz")
        [str "%41", str "%zz"] [])
      ((mkLayer (str "/a/:x/:y") [str "GET"] {}).paramNames.get ⟨0, by decide⟩) =
      some (safeDecode ([str "%41", str "%zz"].get ⟨0, by decide⟩)) :=
  ⟨⟨by decide, by decide, by decide, by decide⟩,
    (C8_params_decode (mkLayer (str "/a/:x/:y") [str "GET"] {}) (str "/a/%41/%zz")
      [str "%41", str "%zz"] [] (by decide) 0 (by decide) (by decide)).1⟩

/-! ### Lemmas about percent-coding (for the URL round-trip) -/

theorem hexVal_hexDigitChar (d : Nat) (h : d < 16) :
    hexVal? (hexDigitChar d) = some d := by
  interval_cases d <;> decide

theorem hexDigitChar_mem (d : Nat) : hexDigitChar d ∈ hexChars := by
  unfold hexDigitChar List.getD
  cases h : hexChars.get? d with
  | none => decide
  | some c =>
    have := List.get?_mem h
    simpa using this

theorem hexDigitChar_ne_slash (d : Nat) : hexDigitChar d ≠ '/' := by
  intro e
  have := hexDigitChar_mem d
  rw [e] at this
  exact absurd this (by decide)

theorem isUnreserved_ne_percent (c : Char) (h : isUnreserved c = true) : c ≠ '%' := by
  intro e
  rw [e] at h
  exact absurd h (by decide)

theorem isUnreserved_ne_slash (c : Char) (h : isUnreserved c = true) : c ≠ '/' := by
  intro e
  rw [e] at h
  exact absurd h (by decide)

theorem not_slash_mem_encodeChar (c : Char) : '/' ∉ encodeChar c := by
  unfold encodeChar
  by_cases h : isUnreserved c = true
  · rw [if_pos h]
    intro hm
    rw [List.mem_singleton] at hm
    exact isUnreserved_ne_slash c h hm.symm
  · rw [if_neg h]
    intro hm
    simp only [List.mem_cons, List.not_mem_nil, or_false] at hm
    rcases hm with e | e | e
    · exact absurd e (by decide)
    · exact hexDigitChar_ne_slash _ e.symm
    · exact hexDigitChar_ne_slash _ e.symm

theorem not_slash_mem_percentEncode (v : Str) : '/' ∉ percentEncode v := by
  induction v with
  | nil => simp [percentEncode]
  | cons c v ih =>
    rw [percentEncode]
    intro hm
    rcases List.mem_append.mp hm with h | h
    · exact not_slash_mem_encodeChar c h
    · exact ih h

theorem percentEncode_ne_nil (v : Str) (h : v ≠ []) : percentEncode v ≠ [] := by
  cases v with
  | nil => exact absurd rfl h
  | cons c v =>
    rw [percentEncode]
    intro e
    have he : encodeChar c = [] := (List.append_eq_nil.mp e).1
    unfold encodeChar at he
    by_cases hh : isUnreserved c = true
    · rw [if_pos hh] at he
      cases he
    · rw [if_neg hh] at he
      cases he

theorem percentDecode_cons_ne_percent (c : Char) (rest : Str) (h : c ≠ '%') :
    percentDecode (c :: rest) = (percentDecode rest).map (fun ds => c :: ds) := by
  rw [percentDecode.eq_def]
  simp [h]

theorem percentDecode_cons_percent (h1 h2 : Char) (rest : Str) (a b : Nat)
    (e1 : hexVal? h1 = some a) (e2 : hexVal? h2 = some b) :
    percentDecode ('%' :: h1 :: h2 :: rest) =
      (percentDecode rest).map (fun ds => Char.ofNat (16 * a + b) :: ds) := by
  rw [percentDecode.eq_def]
  simp only [e1, e2]
  simp

theorem percentDecode_encodeChar_append (c : Char) (rest : Str) (hc : c.toNat < 256) :
    percentDecode (encodeChar c ++ rest) =
      (percentDecode rest).map (fun ds => c :: ds) := by
  by_cases h : isUnreserved c = true
  · rw [show encodeChar c = [c] by unfold encodeChar; rw [if_pos h]]
    rw [show ([c] ++ rest : Str) = c :: rest from rfl]
    rw [percentDecode_cons_ne_percent c rest (isUnreserved_ne_percent c h)]
  · rw [show encodeChar c =
      ['%', hexDigitChar (c.toNat / 16 % 16), hexDigitChar (c.toNat % 16)] by
        unfold encodeChar; rw [if_neg h]]
    rw [show (['%', hexDigitChar (c.toNat / 16 % 16), hexDigitChar (c.toNat % 16)] ++
        rest : Str) =
      '%' :: hexDigitChar (c.toNat / 16 % 16) :: hexDigitChar (c.toNat % 16) :: rest
      from rfl]
    rw [percentDecode_cons_percent _ _ rest (c.toNat / 16 % 16) (c.toNat % 16)
      (hexVal_hexDigitChar _ (Nat.mod_lt _ (by omega)))
      (hexVal_hexDigitChar _ (Nat.mod_lt _ (by omega)))]
    have harith : 16 * (c.toNat / 16 % 16) + c.toNat % 16 = c.toNat := by omega
    simp only [harith, Char.ofNat_toNat]

theorem percentDecode_percentEncode (v : Str) (h : ∀ c ∈ v, c.toNat < 256) :
    percentDecode (percentEncode v) = some v := by
  induction v with
  | nil => rfl
  | cons c v ih =>
    rw [percentEncode, percentDecode_encodeChar_append c _ (h c (by simp))]
    rw [ih (fun x hx => h x (List.mem_cons_of_mem _ hx))]
    rfl

theorem safeDecode_percentEncode (v : Str) (h : ∀ c ∈ v, c.toNat < 256) :
    safeDecode (percentEncode v) = v := by
  unfold safeDecode
  rw [percentDecode_percentEncode v h]

/-! ### Lemmas about joining and re-splitting paths (for the URL round-trip) -/

theorem splitSlash_no_slash (s : Str) (h : '/' ∉ s) : splitSlash s = [s] := by
  induction s with
  | nil => rfl
  | cons c s ih =>
    have hc : ¬ c = '/' := fun e => h (by rw [e]; exact List.mem_cons_self _ _)
    exact splitSlash_cons_ne c s hc s []
      (ih (fun hm => h (List.mem_cons_of_mem _ hm)))

theorem splitSlash_append_slash_cons (s t : Str) (h : '/' ∉ s) :
    splitSlash (s ++ '/' :: t) = s :: splitSlash t := by
  induction s with
  | nil => exact splitSlash_cons_slash t
  | cons c s ih =>
    have hc : ¬ c = '/' := fun e => h (by rw [e]; exact List.mem_cons_self _ _)
    have ih' := ih (fun hm => h (List.mem_cons_of_mem _ hm))
    rw [List.cons_append]
    exact splitSlash_cons_ne c _ hc s (splitSlash t) ih'

theorem splitSlash_joinSlash (pieces : List Str) (hne : pieces ≠ [])
    (h : ∀ p ∈ pieces, '/' ∉ p) :
    splitSlash (joinSlash pieces) = pieces := by
  induction pieces with
  | nil => exact absurd rfl hne
  | cons s rest ih =>
    cases rest with
    | nil => exact splitSlash_no_slash s (h s (by simp))
    | cons s2 rest2 =>
      rw [show joinSlash (s :: s2 :: rest2) = s ++ '/' :: joinSlash (s2 :: rest2)
        from rfl]
      rw [splitSlash_append_slash_cons s _ (h s (by simp))]
      rw [ih (by simp) (fun p hp => h p (List.mem_cons_of_mem _ hp))]

theorem mem_splitSlash_no_slash (cs : Str) (g : Str) (h : g ∈ splitSlash cs) :
    '/' ∉ g := by
  induction cs generalizing g with
  | nil =>
    rw [show splitSlash [] = [[]] from rfl, List.mem_singleton] at h
    rw [h]
    simp
  | cons c cs ih =>
    by_cases hc : c = '/'
    · subst hc
      rw [splitSlash_cons_slash] at h
      rcases List.mem_cons.mp h with rfl | h
      · simp
      · exact ih g h
    · rcases hs : splitSlash cs with _ | ⟨g0, gs⟩
      · exact absurd hs (splitSlash_ne_nil _)
      · rw [splitSlash_cons_ne c cs hc g0 gs hs] at h
        rcases List.mem_cons.mp h with rfl | h
        · intro hm
          rcases List.mem_cons.mp hm with e | hm
          · exact hc e.symm
          · exact ih g0 (by rw [hs]; exact List.mem_cons_self _ _) hm
        · exact ih g (by rw [hs]; exact List.mem_cons_of_mem _ h)

theorem lit_mem_parsePattern_no_slash (p s : Str)
    (h : Seg.lit s ∈ parsePattern p) : '/' ∉ s := by
  unfold parsePattern at h
  rcases List.mem_map.mp h with ⟨g, hg, he⟩
  have hsg : s = g := by
    cases g with
    | nil =>
      rw [show parseSeg [] = Seg.lit [] from rfl] at he
      cases he
      rfl
    | cons c rest =>
      by_cases hc : c = ':'
      · rw [show parseSeg (c :: rest) = if c = ':' then Seg.param rest
          else Seg.lit (c :: rest) from rfl, if_pos hc] at he
        cases he
      · rw [show parseSeg (c :: rest) = if c = ':' then Seg.param rest
          else Seg.lit (c :: rest) from rfl, if_neg hc] at he
        cases he
        rfl
  rw [hsg]
  exact mem_splitSlash_no_slash p g hg

/-! ### Lemmas about URL generation against the compiled matcher -/

theorem litEq_refl (sens : Bool) (s : Str) : litEq sens s s = true := by
  unfold litEq
  cases sens <;> simp

theorem renderSegs_forall₂ (ps : Dict) (segs : List Seg) (pieces : List Str)
    (h : renderSegs ps segs = .ok pieces) :
    List.Forall₂ (fun sg p => renderSeg ps sg = .ok p) segs pieces := by
  induction segs generalizing pieces with
  | nil =>
    cases h
    exact List.Forall₂.nil
  | cons sg rest ih =>
    rw [renderSegs] at h
    cases hg : renderSeg ps sg with
    | error e =>
      cases hr : renderSegs ps rest with
      | error e2 => rw [hg, hr] at h; cases h
      | ok pcs => rw [hg, hr] at h; cases h
    | ok p =>
      cases hr : renderSegs ps rest with
      | error e2 => rw [hg, hr] at h; cases h
      | ok pcs =>
        rw [hg, hr] at h
        cases h
        exact List.Forall₂.cons hg (ih _ hr)

theorem segsExec_render (sens : Bool) (ps : Dict) (segs : List Seg) (pieces : List Str)
    (hfa : List.Forall₂ (fun sg p => renderSeg ps sg = .ok p) segs pieces)
    (hval : ∀ n, Seg.param n ∈ segs → ∃ v, dictGet ps n = some v ∧ v ≠ []) :
    ∃ caps, segsExec sens segs pieces = some caps ∧
      List.Forall₂ (fun n c => ∃ v, dictGet ps n = some v ∧ c = percentEncode v)
        (namesOf segs) caps := by
  induction hfa with
  | nil => exact ⟨[], rfl, List.Forall₂.nil⟩
  | @cons sg p segs pieces hsp hrest ih =>
    obtain ⟨caps, hexec, hcaps⟩ := ih (fun n hn => hval n (List.mem_cons_of_mem _ hn))
    cases sg with
    | lit s =>
      have hp : p = s := by
        rw [show renderSeg ps (Seg.lit s) = .ok s from rfl] at hsp
        cases hsp
        rfl
      subst hp
      refine ⟨caps, ?_, ?_⟩
      · rw [show segsExec sens (Seg.lit p :: segs) (p :: pieces) =
          if litEq sens p p then segsExec sens segs pieces else none from rfl]
        rw [if_pos (litEq_refl sens p)]
        exact hexec
      · exact hcaps
    | param n =>
      obtain ⟨v, hv, hvne⟩ := hval n (List.mem_cons_self _ _)
      have hp : p = percentEncode v := by
        rw [show renderSeg ps (Seg.param n) =
          (match dictGet ps n with
           | some v => .ok (percentEncode v)
           | none => .error .missingParameter) from rfl] at hsp
        rw [hv] at hsp
        cases hsp
        rfl
      subst hp
      have hne : (percentEncode v).isEmpty = false := by
        cases he : (percentEncode v).isEmpty
        · rfl
        · exact absurd (List.isEmpty_iff.mp he) (percentEncode_ne_nil v hvne)
      refine ⟨percentEncode v :: caps, ?_, ?_⟩
      · rw [show segsExec sens (Seg.param n :: segs) (percentEncode v :: pieces) =
          if (percentEncode v).isEmpty then none
          else (segsExec sens segs pieces).map (fun cs => percentEncode v :: cs)
          from rfl]
        rw [hne]
        rw [hexec]
        rfl
      · exact List.Forall₂.cons ⟨v, hv, rfl⟩ hcaps

theorem segsExec_nil_cons (sens : Bool) (p : Str) (ps : List Str) :
    segsExec sens [] (p :: ps) = none := rfl

theorem segsExec_cons_nil (sens : Bool) (sg : Seg) (ss : List Seg) :
    segsExec sens (sg :: ss) [] = none := by
  cases sg <;> rfl

theorem segsExec_append_lit_empty (sens : Bool) (ss : List Seg) (ps : List Str) :
    segsExec sens (ss ++ [Seg.lit []]) (ps ++ [[]]) = segsExec sens ss ps := by
  induction ss generalizing ps with
  | nil =>
    cases ps with
    | nil =>
      rw [show (([] : List Seg) ++ [Seg.lit []]) = [Seg.lit []] from rfl,
        show (([] : List Str) ++ [[]]) = [[]] from rfl]
      rw [show segsExec sens [Seg.lit []] [[]] =
        if litEq sens [] [] then segsExec sens [] [] else none from rfl]
      rw [if_pos (litEq_refl sens [])]
    | cons p ps' =>
      rw [show (([] : List Seg) ++ [Seg.lit []]) = [Seg.lit []] from rfl,
        List.cons_append]
      rw [show segsExec sens [Seg.lit []] (p :: (ps' ++ [[]])) =
        if litEq sens [] p then segsExec sens [] (ps' ++ [[]]) else none from rfl]
      have hnil : segsExec sens [] (ps' ++ [[]]) = none := by
        cases ps' <;> rfl
      rw [segsExec_nil_cons]
      by_cases h : litEq sens [] p = true
      · rw [if_pos h, hnil]
      · rw [if_neg h]
  | cons sg ss ih =>
    cases ps with
    | nil =>
      rw [List.cons_append, show (([] : List Str) ++ [[]]) = [[]] from rfl,
        segsExec_cons_nil]
      cases sg with
      | lit l =>
        rw [show segsExec sens (Seg.lit l :: (ss ++ [Seg.lit []])) [[]] =
          if litEq sens l [] then segsExec sens (ss ++ [Seg.lit []]) [] else none
          from rfl]
        have hnil : segsExec sens (ss ++ [Seg.lit []]) [] = none := by
          cases ss <;> first | rfl | exact segsExec_cons_nil _ _ _
        by_cases h : litEq sens l [] = true
        · rw [if_pos h, hnil]
        · rw [if_neg h]
      | param n =>
        rw [show segsExec sens (Seg.param n :: (ss ++ [Seg.lit []])) [[]] =
          if ([] : Str).isEmpty then none
          else (segsExec sens (ss ++ [Seg.lit []]) []).map (fun cs => [] :: cs)
          from rfl]
        rw [if_pos (show ([] : Str).isEmpty = true from rfl)]
    | cons p ps' =>
      rw [List.cons_append, List.cons_append]
      cases sg with
      | lit l =>
        rw [show segsExec sens (Seg.lit l :: (ss ++ [Seg.lit []])) (p :: (ps' ++ [[]])) =
          if litEq sens l p then segsExec sens (ss ++ [Seg.lit []]) (ps' ++ [[]])
          else none from rfl]
        rw [show segsExec sens (Seg.lit l :: ss) (p :: ps') =
          if litEq sens l p then segsExec sens ss ps' else none from rfl]
        by_cases h : litEq sens l p = true
        · rw [if_pos h, if_pos h, ih]
        · rw [if_neg h, if_neg h]
      | param n =>
        rw [show segsExec sens (Seg.param n :: (ss ++ [Seg.lit []])) (p :: (ps' ++ [[]])) =
          if p.isEmpty then none
          else (segsExec sens (ss ++ [Seg.lit []]) (ps' ++ [[]])).map (fun cs => p :: cs)
          from rfl]
        rw [show segsExec sens (Seg.param n :: ss) (p :: ps') =
          if p.isEmpty then none
          else (segsExec sens ss ps').map (fun cs => p :: cs) from rfl]
        by_cases h : p.isEmpty = true
        · rw [if_pos h, if_pos h]
        · rw [if_neg h, if_neg h, ih]

theorem eq_concat_of_getLast? {α : Type} (xs : List α) (x : α)
    (h : xs.getLast? = some x) : xs = xs.dropLast ++ [x] := by
  have hne : xs ≠ [] := by
    intro e
    rw [e] at h
    cases h
  have h2 := List.dropLast_concat_getLast hne
  rw [List.getLast?_eq_getLast xs hne] at h
  have hx : x = xs.getLast hne := by
    cases h
    rfl
  rw [hx]
  exact h2.symm

theorem forall₂_concat_inv {α β : Type} {R : α → β → Prop} (xs : List α) (x : α)
    (ys : List β) (hfa : List.Forall₂ R (xs ++ [x]) ys) :
    ∃ yss y, ys = yss ++ [y] ∧ List.Forall₂ R xs yss ∧ R x y := by
  have hrev := List.forall₂_reverse_iff.mpr hfa
  rw [List.reverse_append] at hrev
  rw [show ([x] : List α).reverse ++ xs.reverse = x :: xs.reverse from rfl] at hrev
  cases hpr : ys.reverse with
  | nil =>
    rw [hpr] at hrev
    cases hrev
  | cons y0 yrest =>
    rw [hpr] at hrev
    cases hrev with
    | cons hR hrest =>
      refine ⟨yrest.reverse, y0, ?_, ?_, hR⟩
      · have hy := congrArg List.reverse hpr
        rw [List.reverse_reverse] at hy
        rw [hy, List.reverse_cons]
      · exact List.forall₂_reverse_iff.mp
          (by rw [List.reverse_reverse]; exact hrest)

theorem segsExec_strip_render (sens : Bool) (ps : Dict) (segs : List Seg)
    (pieces : List Str)
    (hfa : List.Forall₂ (fun sg p => renderSeg ps sg = .ok p) segs pieces)
    (hval : ∀ n, Seg.param n ∈ segs → ∃ v, dictGet ps n = some v ∧ v ≠ []) :
    segsExec sens (stripSegs segs) (stripTrailing pieces) =
      segsExec sens segs pieces := by
  have hlen := hfa.length_eq
  by_cases hc : 2 ≤ segs.length ∧ segs.getLast? = some (Seg.lit [])
  · have hdec := eq_concat_of_getLast? segs _ hc.2
    rw [hdec] at hfa
    obtain ⟨pcs, p0, hpieces, hfa', hR⟩ := forall₂_concat_inv _ _ _ hfa
    have hp0 : p0 = [] := by
      rw [show renderSeg ps (Seg.lit []) = .ok [] from rfl] at hR
      cases hR
      rfl
    subst hp0
    have hstrip1 : stripSegs segs = segs.dropLast := by
      unfold stripSegs
      rw [if_pos hc]
    have hstrip2 : stripTrailing pieces = pcs := by
      unfold stripTrailing
      rw [if_pos ?side]
      · rw [hpieces, List.dropLast_concat]
      case side =>
        constructor
        · omega
        · rw [hpieces]
          exact List.getLast?_concat _
    rw [hstrip1, hstrip2, hdec, hpieces, List.dropLast_concat]
    exact (segsExec_append_lit_empty sens _ _).symm
  · have hstrip1 : stripSegs segs = segs := by
      unfold stripSegs
      rw [if_neg hc]
    have hstrip2 : stripTrailing pieces = pieces := by
      unfold stripTrailing
      rw [if_neg ?side2]
      case side2 =>
        intro hp
        obtain ⟨hp1, hp2⟩ := hp
        have hsegs2 : 2 ≤ segs.length := by omega
        have hsne : segs ≠ [] := by
          intro e
          rw [e] at hsegs2
          simp at hsegs2
        obtain ⟨x, hx⟩ := Option.isSome_iff_exists.mp
          (List.getLast?_isSome.mpr hsne)
        have hdecs := eq_concat_of_getLast? segs _ hx
        rw [hdecs] at hfa
        obtain ⟨pcs, py, hpieces, hfa', hR⟩ := forall₂_concat_inv _ _ _ hfa
        have hpy : py = [] := by
          have hpd := eq_concat_of_getLast? pieces _ hp2
          rw [hpieces, List.dropLast_concat] at hpd
          have h3 : [py] = [([] : Str)] :=
            List.append_inj_right hpd rfl
          cases h3
          rfl
        subst hpy
        cases x with
        | lit s =>
          have hs : s = [] := by
            rw [show renderSeg ps (Seg.lit s) = .ok s from rfl] at hR
            cases hR
            rfl
          subst hs
          exact hc ⟨hsegs2, hx⟩
        | param n =>
          obtain ⟨v, hv, hvne⟩ := hval n (by
            rw [hdecs]
            exact List.mem_append.mpr (Or.inr (by simp)))
          rw [show renderSeg ps (Seg.param n) =
            (match dictGet ps n with
             | some v => .ok (percentEncode v)
             | none => .error .missingParameter) from rfl] at hR
          rw [hv] at hR
          injection hR with h5
          exact percentEncode_ne_nil v hvne h5
    rw [hstrip1, hstrip2]

/-! ### Claim C3 -/

/-- Modelled from the spec: decidable form of "the parameter map supplies,
for this name, a non-empty single-byte-character value" — the hypotheses
under which URL generation round-trips through the matcher. -/
def covOk (ps : Dict) (m : Str) : Bool :=
  match dictGet ps m with
  | some v => !v.isEmpty && v.all (fun c => decide (c.toNat < 256))
  | none => false

theorem covOk_spec (ps : Dict) (m : Str) (h : covOk ps m = true) :
    ∃ v, dictGet ps m = some v ∧ v ≠ [] ∧ ∀ c ∈ v, c.toNat < 256 := by
  unfold covOk at h
  cases hv : dictGet ps m with
  | none =>
    rw [hv] at h
    cases h
  | some v =>
    rw [hv] at h
    rw [Bool.and_eq_true] at h
    refine ⟨v, rfl, ?_, ?_⟩
    · intro e
      rw [e] at h
      exact absurd h.1 (by decide)
    · intro c hc
      exact of_decide_eq_true (List.all_eq_true.mp h.2 c hc)

theorem pieces_no_slash (ps : Dict) (pat : Str) (pieces : List Str)
    (hfa : List.Forall₂ (fun sg p => renderSeg ps sg = .ok p) (parsePattern pat) pieces)
    (hval : ∀ n, Seg.param n ∈ parsePattern pat → (dictGet ps n).isSome = true) :
    ∀ p ∈ pieces, '/' ∉ p := by
  intro p hp
  obtain ⟨hlen, hget⟩ := List.forall₂_iff_get.mp hfa
  obtain ⟨i, hi⟩ := List.mem_iff_get.mp hp
  rcases i with ⟨i, hilt⟩
  have hR := hget i (by omega) hilt
  rw [hi] at hR
  cases hsg : (parsePattern pat).get ⟨i, by omega⟩ with
  | lit s =>
    rw [hsg] at hR
    have hps : p = s := by
      rw [show renderSeg ps (Seg.lit s) = .ok s from rfl] at hR
      cases hR
      rfl
    rw [hps]
    exact lit_mem_parsePattern_no_slash pat s (by rw [← hsg]; exact List.get_mem _ _ _)
  | param m =>
    rw [hsg] at hR
    have hps : Seg.param m ∈ parsePattern pat := by
      rw [← hsg]
      exact List.get_mem _ _ _
    obtain ⟨v, hv⟩ := Option.isSome_iff_exists.mp (hval m hps)
    rw [show renderSeg ps (Seg.param m) =
      (match dictGet ps m with
       | some v => .ok (percentEncode v)
       | none => .error .missingParameter) from rfl, hv] at hR
    have hpv : p = percentEncode v := by
      cases hR
      rfl
    rw [hpv]
    exact not_slash_mem_percentEncode v

/-- C3: generating a URL for a named route from a parameter assignment
that supplies a non-empty (single-byte-character) value for each named
parameter, then matching the generated URL with the route's own matcher
and extracting its parameter map, recovers exactly the original parameter
values. -/
theorem C3_url_match_roundtrip (r : RouterM) (n : Str) (l : Layer) (ps : Dict)
    (hfind : r.stack.find? (fun l => !l.name.isEmpty && l.name == n) = some l)
    (hic : l.opts.ignoreCaptures = false)
    (hnd : l.paramNames.Nodup)
    (hcov : ∀ m ∈ l.paramNames, covOk ps m = true) :
    ∃ u, r.url n ps = .ok u ∧ l.matches u = true ∧
      ∀ m ∈ l.paramNames, dictGet (l.params u (l.captures u) []) m = dictGet ps m := by
  have hval : ∀ m, Seg.param m ∈ parsePattern l.path →
      ∃ v, dictGet ps m = some v ∧ v ≠ [] := by
    intro m hm
    obtain ⟨v, hv, hvne, _⟩ := covOk_spec ps m (hcov m (mem_paramNames_of_seg l m hm))
    exact ⟨v, hv, hvne⟩
  have hvalSome : ∀ m, Seg.param m ∈ parsePattern l.path →
      (dictGet ps m).isSome = true := by
    intro m hm
    obtain ⟨v, hv, _⟩ := hval m hm
    rw [hv]
    rfl
  obtain ⟨pieces, hpieces⟩ := renderSegs_ok_of_covered ps (parsePattern l.path) hvalSome
  refine ⟨joinSlash pieces, ?_, ?_, ?_⟩
  · unfold RouterM.url
    rw [hfind]
    show (renderSegs ps (parsePattern l.path)).map joinSlash = _
    rw [hpieces]
    rfl
  · have hfa := renderSegs_forall₂ ps _ _ hpieces
    obtain ⟨caps, hexec, _⟩ :=
      segsExec_render l.opts.sensitive ps _ _ hfa hval
    have hne : pieces ≠ [] := by
      intro e
      have hlen := hfa.length_eq
      rw [e] at hlen
      have : parsePattern l.path = [] := List.length_eq_zero.mp hlen
      exact splitSlash_ne_nil l.path (by
        have := congrArg List.length this
        unfold parsePattern at this
        simp at this
        exact List.length_eq_zero.mp (by simpa using this))
    have hsplit : splitSlash (joinSlash pieces) = pieces :=
      splitSlash_joinSlash pieces hne (pieces_no_slash ps l.path pieces hfa hvalSome)
    unfold Layer.matches Layer.doMatch
    rw [hsplit]
    by_cases hstrict : l.opts.strict = true
    · rw [hstrict]
      simp only [ite_true, hexec]
      rfl
    · rw [show l.opts.strict = false from Bool.eq_false_iff.mpr hstrict]
      simp only [Bool.false_eq_true, ite_false]
      rw [segsExec_strip_render l.opts.sensitive ps _ _ hfa hval, hexec]
      rfl
  · have hfa := renderSegs_forall₂ ps _ _ hpieces
    obtain ⟨caps, hexec, hcaps⟩ :=
      segsExec_render l.opts.sensitive ps _ _ hfa hval
    have hne : pieces ≠ [] := by
      intro e
      have hlen := hfa.length_eq
      rw [e] at hlen
      have : parsePattern l.path = [] := List.length_eq_zero.mp hlen
      exact splitSlash_ne_nil l.path (by
        have := congrArg List.length this
        unfold parsePattern at this
        simp at this
        exact List.length_eq_zero.mp (by simpa using this))
    have hsplit : splitSlash (joinSlash pieces) = pieces :=
      splitSlash_joinSlash pieces hne (pieces_no_slash ps l.path pieces hfa hvalSome)
    have hdoMatch : l.doMatch (joinSlash pieces) = some caps := by
      unfold Layer.doMatch
      rw [hsplit]
      by_cases hstrict : l.opts.strict = true
      · rw [hstrict]
        simp only [ite_true]
        exact hexec
      · rw [show l.opts.strict = false from Bool.eq_false_iff.mpr hstrict]
        simp only [Bool.false_eq_true, ite_false]
        rw [segsExec_strip_render l.opts.sensitive ps _ _ hfa hval]
        exact hexec
    have hcapt : l.captures (joinSlash pieces) = caps := by
      unfold Layer.captures
      rw [hic, hdoMatch]
      rfl
    intro m hm
    rw [hcapt]
    obtain ⟨hclen, hcget⟩ := List.forall₂_iff_get.mp hcaps
    obtain ⟨i, hi⟩ := List.mem_iff_get.mp hm
    rcases i with ⟨i, hilt⟩
    have hR := hcget i hilt (by
      have : l.paramNames = namesOf (parsePattern l.path) := rfl
      rw [this] at hilt
      omega)
    obtain ⟨v, hv, hcv⟩ := hR
    have hfold := dictGet_zip_fold l.paramNames caps [] hnd i hilt (by
      have : l.paramNames = namesOf (parsePattern l.path) := rfl
      rw [this] at hilt
      omega)
    show dictGet ((List.zip l.paramNames caps).foldl
      (fun d p => dictSet d p.1 (safeDecode p.2)) []) m = dictGet ps m
    rw [← hi] at hm ⊢
    rw [hfold]
    have hvge : (namesOf (parsePattern l.path)).get ⟨i, by
        have : l.paramNames = namesOf (parsePattern l.path) := rfl
        rw [this] at hilt
        exact hilt⟩ = l.paramNames.get ⟨i, hilt⟩ := rfl
    rw [hvge] at hv
    rw [hcv]
    obtain ⟨v2, hv2, _, hv2lt⟩ := covOk_spec ps _ (hcov _ hm)
    have hvv : v2 = v := by
      rw [hv] at hv2
      cases hv2
      rfl
    rw [safeDecode_percentEncode v (by rw [← hvv]; exact hv2lt)]
    rw [hv]

/-- C3 witness: the named route `user` with pattern `/users/:id` and the
parameter assignment `{id: "1 2"}` (a value that needs percent-encoding)
round-trips through URL generation, matching and parameter extraction. -/
theorem C3_witness :
    ((RouterM.mk defaultMethods
        [mkLayer (str "/users/:id") [str "GET"] { name := some (str "user") }]).stack.find?
        (fun l => !l.name.isEmpty && l.name == str "user") =
      some (mkLayer (str "/users/:id") [str "GET"] { name := some (str "user") }) ∧
     (∀ m ∈ (mkLayer (str "/users/:id") [str "GET"]
        { name := some (str "user") }).paramNames,
       covOk [(str "id", str "1 2")] m = true)) ∧
    ∃ u, (RouterM.mk defaultMethods
        [mkLayer (str "/users/:id") [str "GET"] { name := some (str "user") }]).url
        (str "user") [(str "id", str "1 2")] = .ok u ∧
      (mkLayer (str "/users/:id") [str "GET"]
        { name := some (str "user") }).matches u = true ∧
      ∀ m ∈ (mkLayer (str "/users/:id") [str "GET"]
          { name := some (str "user") }).paramNames,
        dictGet ((mkLayer (str "/users/:id") [str "GET"]
            { name := some (str "user") }).params u
          ((mkLayer (str "/users/:id") [str "GET"]
            { name := some (str "user") }).captures u) []) m =
          dictGet [(str "id", str "1 2")] m :=
  ⟨⟨by decide, by decide⟩,
    C3_url_match_roundtrip
      (RouterM.mk defaultMethods
        [mkLayer (str "/users/:id") [str "GET"] { name := some (str "user") }])
      (str "user")
      (mkLayer (str "/users/:id") [str "GET"] { name := some (str "user") })
      [(str "id", str "1 2")]
      (by decide) (by decide) (by decide) (by decide)⟩

end KoaRouter
